import Mathlib

/-!
Verification development for the RWTH queue tracker (`rwth.py`).

Modelling conventions used throughout this file:

* Calendar dates are modelled as integers counting days since 1970-01-01.
  The hard-coded step-correction cutover `dt.date(2023, 11, 25)` in `regress`
  is day 19686 in this encoding, and `dt.date(2199, 1, 1)` (the sentinel used
  when sorting the legend) is day 83641.  `dt.timedelta(days = k)` is the
  integer `k`, and the `.days` of a difference of two dates is plain integer
  subtraction.
* Machine floating point numbers produced by `np.polyfit` are idealised as
  exact rationals (`ℚ`); the degree-1 `np.polyfit` is the ordinary
  least-squares line through the points, written out in closed form.
* Python's `round` (and `np.float64.__round__`) rounds halves to the nearest
  even integer; `round_half_even` models this exactly.
* `bisect.bisect_right l x` (resp. `bisect_left`) on the sorted date lists the
  program uses returns the number of elements `≤ x` (resp. `< x`), which is
  how the two functions are modelled here.
* The MySQL `entry` table is modelled as an association list from the
  composite key `(room_id, date)` to `(capacity, pos)`.  The serializable
  `select ... for update` / decide / write transaction of
  `create_or_update_entry` is modelled as one atomic function on that state;
  a run of concurrent callers is a sequential execution in an arbitrary
  order, which is what the serializable isolation level guarantees.
-/

namespace Rwth

/-- `dt.date(2023, 11, 25)`, the step-correction cutover, as days since 1970-01-01. -/
def cutover : Int := 19686

/-- `dt.date(2199, 1, 1)`, the legend-sort sentinel, as days since 1970-01-01. -/
def far_future : Int := 83641

/-- `bisect.bisect_right dates x` for the sorted lists the program passes:
the number of entries that are `≤ x`. -/
def bisect_right (l : List Int) (x : Int) : Nat :=
  l.countP (fun d => d ≤ x)

/-- `bisect.bisect_left dates x` for the sorted lists the program passes:
the number of entries that are `< x`. -/
def bisect_left (l : List Int) (x : Int) : Nat :=
  l.countP (fun d => d < x)

/-- `dates_to_ints(base, dates)`: days since a base date, one per input date. -/
def dates_to_ints (base : Int) (dates : List Int) : List Int :=
  dates.map (fun d => d - base)

/-- Sum of the abscissae, as a rational. -/
def sx (ts : List Int) : ℚ :=
  (ts.map (fun t => (t : ℚ))).sum

/-- Sum of the squared abscissae, as a rational. -/
def sxx (ts : List Int) : ℚ :=
  (ts.map (fun t => ((t : ℚ)) ^ 2)).sum

/-- Sum of the pointwise products of abscissae and ordinates. -/
def sxy (ts : List Int) (ps : List ℚ) : ℚ :=
  ((ts.zip ps).map (fun z => ((z.1 : ℚ)) * z.2)).sum

/-- The normal-equation denominator `n·Σt² − (Σt)²` of the least-squares fit. -/
def denom (ts : List Int) : ℚ :=
  (ts.length : ℚ) * sxx ts - (sx ts) ^ 2

/-- `np.polyfit(ts, ps, deg=1)` idealised over `ℚ`: the ordinary least-squares
line `p = m·t + c`, returned as `(m, c)`.  The `denom ts = 0` branch (all
abscissae equal) never arises for the strictly increasing date lists the
program fits. -/
def olsFit (ts : List Int) (ps : List ℚ) : ℚ × ℚ :=
  if denom ts = 0 then (0, if ts.length = 0 then 0 else ps.sum / (ts.length : ℚ))
  else
    (((ts.length : ℚ) * sxy ts ps - sx ts * ps.sum) / denom ts,
      (ps.sum - ((ts.length : ℚ) * sxy ts ps - sx ts * ps.sum) / denom ts * sx ts) /
        (ts.length : ℚ))

/-- The sum of squared errors of the line `p = m·t + c` on the data points
`(ts, ps)` — what "ordinary least squares" (`np.polyfit`, deg 1) minimises. -/
def sse (ts : List Int) (ps : List ℚ) (m c : ℚ) : ℚ :=
  ((ts.zip ps).map (fun z => (z.2 - (m * (z.1 : ℚ) + c)) ^ 2)).sum

/-- Python's `round` on an exact rational: nearest integer, halves to even. -/
def round_half_even (q : ℚ) : Int :=
  if q - ⌊q⌋ < 1 / 2 then ⌊q⌋
  else if 1 / 2 < q - ⌊q⌋ then ⌊q⌋ + 1
  else if ⌊q⌋ % 2 = 0 then ⌊q⌋ else ⌊q⌋ + 1

/-- The step-correction block of `regress` (lines 245-250 of `rwth.py`):
`j = bisect.bisect_left(dates_ltd, cutover)`; if `j != 0 and j < len - 1`
then `step = positions_ltd[j+1] - positions_ltd[j]` and
`positions_ltd[j+1:] -= step`.  Returns `(step, corrected positions)`. -/
def step_correct (dates : List Int) (ps : List ℚ) : ℚ × List ℚ :=
  let j := bisect_left dates cutover
  if j ≠ 0 ∧ j < dates.length - 1 then
    let s := ps.getD (j + 1) 0 - ps.getD j 0
    (s, ps.take (j + 1) ++ (ps.drop (j + 1)).map (fun p => p - s))
  else (0, ps)

/-- `regress(dates, positions, max_date, goal_date, delta_days)` of `rwth.py`.
`none` models the Python `return None, None, None`; otherwise the result is
`some (m, c, eta)` with `eta : Option Int` for the possibly-`None` ETA date.
(`goal_date` is accepted and ignored, exactly as in the source, where its only
use is commented out; the Python default `delta_days=0` is passed explicitly
by callers here.) -/
def regress (dates : List Int) (positions : List ℚ)
    (max_date goal_date delta_days : Int) : Option (ℚ × ℚ × Option Int) :=
  let bis := bisect_right dates (max_date - delta_days)
  if bis = 0 then none
  else
    let min_date := dates.getD 0 0
    let dates_ltd := dates.take bis
    let sc := step_correct dates_ltd (positions.take bis)
    let mc :=
      if 1 < dates_ltd.length then olsFit (dates_to_ints min_date dates_ltd) sc.2
      else (0, sc.2.getD 0 0)
    let c := mc.2 + sc.1
    some (mc.1, c,
      if 1 / 100000000 < |mc.1| then some (min_date + round_half_even (-c / mc.1))
      else none)

/-- The `Regression` dataclass.  `m` and `c` are `Option`s because Python
happily stores the `None, None, None` return of `regress` in the `float`
fields. -/
structure Regression where
  m : Option ℚ
  c : Option ℚ
  eta : Option Int
  deta_1d : Option Int
  deta_1w : Option Int
deriving DecidableEq, Repr

/-- Unpack the Python tuple `m, c, eta = regress(...)`, which is either three
`None`s or two floats and an optional date. -/
def unpack3 : Option (ℚ × ℚ × Option Int) → Option ℚ × Option ℚ × Option Int
  | none => (none, none, none)
  | some (m, c, e) => (some m, some c, e)

/-- Difference of two optional dates in whole days:
`int((a - b).days) if a is not None and b is not None else None`. -/
def osub : Option Int → Option Int → Option Int
  | some a, some b => some (a - b)
  | _, _ => none

/-- `compute_regression(dates, positions, max_date, goal_date)` of `rwth.py`. -/
def compute_regression (dates : List Int) (positions : List ℚ)
    (max_date goal_date : Int) : Regression :=
  let r := unpack3 (regress dates positions max_date goal_date 0)
  let eta_1d := (unpack3 (regress dates positions max_date goal_date 1)).2.2
  let eta_1w := (unpack3 (regress dates positions max_date goal_date 7)).2.2
  ⟨r.1, r.2.1, r.2.2, osub r.2.2 eta_1d, osub r.2.2 eta_1w⟩

/-- `s.rjust w`: left-pad with spaces (`Char.ofNat 32`) to width `w`. -/
def rjust (s : String) (w : Nat) : String :=
  String.mk (List.replicate (w - s.length) (Char.ofNat 32)) ++ s

/-- `format_delta_pos(dfpos, suffix)` of `rwth.py`. -/
def format_delta_pos (dfpos : Option Int) (suffix : String) : String :=
  let s :=
    match dfpos with
    | none => "?"
    | some d =>
      if d = 0 then "0"
      else (if 0 < d then "+" else "-") ++ toString d.natAbs
  rjust (s ++ suffix) 6

/-- The composite key `(room_id, date)` of the `entry` table. -/
abbrev EntryKey := Int × Int

/-- The payload `(capacity, pos)` of an `entry` row. -/
abbrev EntryRow := Int × Int

/-- The `entry` table, as an association list with at most one row per key. -/
abbrev Store := List (EntryKey × EntryRow)

/-- The four outcomes of an upsert, matching the branches (and log lines) of
`create_or_update_entry`: insert, identical, updated, ignored-conflict. -/
inductive UpsertOutcome
  | created
  | unchanged
  | updated
  | conflict
deriving DecidableEq, Repr

/-- The SQL `update entry set capacity = ..., pos = ... where room_id = ...
and date = ...`: rewrite every row whose key matches. -/
def store_update (s : Store) (k : EntryKey) (v : EntryRow) : Store :=
  s.map (fun e => if e.1 = k then (k, v) else e)

/-- `create_or_update_entry(db, rec, user, update)` of `rwth.py`, as one
atomic transition on the `entry` table: read the row for `(room_id, date)`
(under `select ... for update` at serializable isolation), then insert /
leave / update / ignore.  Returns the new table and the outcome; the Python
version raises nothing on any of these paths. -/
def create_or_update_entry (s : Store) (room_id date capacity pos : Int)
    (update : Bool) : Store × UpsertOutcome :=
  match s.lookup (room_id, date) with
  | none => (((room_id, date), (capacity, pos)) :: s, .created)
  | some row =>
    if row.1 ≠ capacity ∨ row.2 ≠ pos then
      if update then (store_update s (room_id, date) (capacity, pos), .updated)
      else (s, .conflict)
    else (s, .unchanged)

/-- One concurrent caller of `create_or_update_entry`: the values it tries to
write and its `--update` policy. -/
structure Call where
  capacity : Int
  pos : Int
  update : Bool
deriving DecidableEq, Repr

/-- A serial execution of a batch of upsert calls against one `(room_id,
date)` key (the serializable transaction reduces any concurrent run to such a
serial order).  Returns the final table and each caller's outcome, in order. -/
def run_calls (s : Store) (room_id date : Int) : List Call → Store × List UpsertOutcome
  | [] => (s, [])
  | c :: cs =>
    let r := create_or_update_entry s room_id date c.capacity c.pos c.update
    let rest := run_calls r.1 room_id date cs
    (rest.1, r.2 :: rest.2)

/-- Number of rows stored under a key. -/
def key_count (s : Store) (k : EntryKey) : Nat :=
  s.countP (fun e => e.1 = k)

/-- One legend entry of `draw_graph`: the room's ETA and its plot index. -/
structure LegendItem where
  eta : Option Int
  idx : Nat
deriving DecidableEq, Repr

/-- The sort key used in `decorate_graph`:
`x.eta if x.eta is not None else dt.date(2199, 1, 1)`. -/
def legend_key (x : LegendItem) : Int :=
  x.eta.getD far_future

/-- The legend ordering of `decorate_graph`:
`sorted(legend_order, key=..., reverse=True)` — a stable sort into
*descending* key order.  Python's timsort is stable, and a stable sort's
output is uniquely determined by the comparator, so the stable
`List.insertionSort` with the reversed comparator computes the same list. -/
def sort_legend (l : List LegendItem) : List LegendItem :=
  List.insertionSort (fun a b => legend_key b ≤ legend_key a) l

/-! ## Claim C1: idempotence of identical upserts -/

/-- Claim C1: if an observation row already exists for `(room_id, date)` with
the very same `(capacity, pos)`, a further `create_or_update_entry` call with
those values returns `unchanged` and leaves the stored table unmodified (no
insert and no update), under either update policy — repeated upserts of the
same value are idempotent. -/
theorem upsert_identical_unchanged (s : Store) (room_id date capacity pos : Int)
    (update : Bool) (h : s.lookup (room_id, date) = some (capacity, pos)) :
    create_or_update_entry s room_id date capacity pos update = (s, .unchanged) := by
  unfold create_or_update_entry
  rw [h]
  simp

/-- Witness for C1: a concrete table holding `((1, 19686), (5, 10))`, upserted
again with capacity 5 and position 10. -/
theorem upsert_identical_unchanged_witness :
    List.lookup ((1 : Int), (19686 : Int))
        ([(((1 : Int), (19686 : Int)), ((5 : Int), (10 : Int)))] : Store) = some (5, 10) ∧
    create_or_update_entry ([(((1 : Int), (19686 : Int)), ((5 : Int), (10 : Int)))] : Store)
        1 19686 5 10 false =
      (([(((1 : Int), (19686 : Int)), ((5 : Int), (10 : Int)))] : Store), .unchanged) :=
  ⟨by decide, upsert_identical_unchanged _ 1 19686 5 10 false (by decide)⟩

/-! ## Claim C7: conflicts under the no-update policy are reported, not persisted -/

/-- Claim C7: with `update = false` (policy UpdateForbidden), when a row
exists for the key with different `(capacity, pos)`, the call leaves the
stored table exactly as it was and reports a `conflict`; the function is
total, so no exception is raised on this path. -/
theorem upsert_conflict_preserves_store (s : Store) (room_id date c p capacity pos : Int)
    (h : s.lookup (room_id, date) = some (c, p)) (hne : c ≠ capacity ∨ p ≠ pos) :
    create_or_update_entry s room_id date capacity pos false = (s, .conflict) := by
  unfold create_or_update_entry
  rw [h]
  show (if c ≠ capacity ∨ p ≠ pos then
      if false = true then (store_update s (room_id, date) (capacity, pos), UpsertOutcome.updated)
      else (s, UpsertOutcome.conflict)
    else (s, UpsertOutcome.unchanged)) = (s, UpsertOutcome.conflict)
  rw [if_pos hne]
  rfl

/-- Witness for C7: a concrete table holding `((1, 19686), (5, 10))`, upserted
with the different values capacity 6, position 11, under `update = false`. -/
theorem upsert_conflict_preserves_store_witness :
    List.lookup ((1 : Int), (19686 : Int))
        ([(((1 : Int), (19686 : Int)), ((5 : Int), (10 : Int)))] : Store) = some (5, 10) ∧
    ((5 : Int) ≠ 6 ∨ (10 : Int) ≠ 11) ∧
    create_or_update_entry ([(((1 : Int), (19686 : Int)), ((5 : Int), (10 : Int)))] : Store)
        1 19686 6 11 false =
      (([(((1 : Int), (19686 : Int)), ((5 : Int), (10 : Int)))] : Store), .conflict) :=
  ⟨by decide, by decide,
    upsert_conflict_preserves_store _ 1 19686 5 10 6 11 (by decide) (by decide)⟩

/-! ## Claim C9: the drift formatter -/

/-- Counterexample to claim C9 as stated: the formatter pads on the LEFT
(Python `str.rjust` right-justifies), not on the right.
`format_delta_pos none "d"` is `"    ?d"`, not `"?d"` followed by padding. -/
theorem format_delta_pos_counterexample :
    format_delta_pos none "d" = "    ?d" ∧ format_delta_pos none "d" ≠ "?d    " := by
  exact ⟨rfl, by decide⟩

/-- Claim C9 amended: the formatter maps `None` to `"?"`, zero to `"0"`, a
positive `n` to `"+n"` and a negative `-n` to `"-n"`, appends the suffix, and
pads on the LEFT with spaces to width 6 (right-justified), giving a fixed
width of 6 for all of the spec's example values. -/
theorem format_delta_pos_amended :
    (∀ s, format_delta_pos none s = rjust ("?" ++ s) 6) ∧
    (∀ s, format_delta_pos (some 0) s = rjust ("0" ++ s) 6) ∧
    (∀ s d, 0 < d → format_delta_pos (some d) s = rjust (("+" ++ toString d.natAbs) ++ s) 6) ∧
    (∀ s d, d < 0 → format_delta_pos (some d) s = rjust (("-" ++ toString d.natAbs) ++ s) 6) ∧
    format_delta_pos none "d" = "    ?d" ∧
    format_delta_pos (some 0) "d" = "    0d" ∧
    format_delta_pos (some 5) "d" = "   +5d" ∧
    format_delta_pos (some (-3)) "w" = "   -3w" := by
  refine ⟨fun s => rfl, fun s => rfl, fun s d hd => ?_, fun s d hd => ?_, rfl, rfl, rfl, rfl⟩
  · simp only [format_delta_pos]
    rw [if_neg (by omega), if_pos hd]
  · simp only [format_delta_pos]
    rw [if_neg (by omega), if_neg (by omega)]

/-- Witness for C9 (amended): the positive branch at 7 with suffix `"w"`. -/
theorem format_delta_pos_amended_witness :
    (0 : Int) < 7 ∧
    format_delta_pos (some 7) "w" = rjust (("+" ++ toString (7 : Int).natAbs) ++ "w") 6 :=
  ⟨by decide, format_delta_pos_amended.2.2.1 "w" 7 (by decide)⟩

/-! ## Claim C8: report ordering -/

instance : IsTotal LegendItem (fun a b => legend_key b ≤ legend_key a) :=
  ⟨fun a b => le_total (legend_key b) (legend_key a)⟩

instance : IsTrans LegendItem (fun a b => legend_key b ≤ legend_key a) :=
  ⟨fun _ _ _ h1 h2 => le_trans h2 h1⟩

/-- Counterexample to claim C8 as stated: `decorate_graph` sorts the legend
with `reverse=True`, i.e. by ETA DESCENDING, and a room with an undefined ETA
takes the far-future sentinel key and therefore sorts FIRST, not last. -/
theorem sort_legend_counterexample :
    sort_legend [⟨some 10, 0⟩, ⟨some 20, 1⟩] = [⟨some 20, 1⟩, ⟨some 10, 0⟩] ∧
    sort_legend [⟨some 10, 0⟩, ⟨some 20, 1⟩] ≠ [⟨some 10, 0⟩, ⟨some 20, 1⟩] ∧
    sort_legend [⟨none, 0⟩, ⟨some 10, 1⟩] = [⟨none, 0⟩, ⟨some 10, 1⟩] ∧
    sort_legend [⟨none, 0⟩, ⟨some 10, 1⟩] ≠ [⟨some 10, 1⟩, ⟨none, 0⟩] := by
  refine ⟨?_, ?_, ?_, ?_⟩ <;> decide

/-- Claim C8 amended: the legend order is a permutation of the per-room
projections sorted by the key `eta` (with `none` replaced by the sentinel
2199-01-01) in DESCENDING order — latest ETA first, undefined ETAs first of
all, soonest ETA last. -/
theorem sort_legend_amended (l : List LegendItem) :
    (sort_legend l).Perm l ∧
    (sort_legend l).Sorted (fun a b => legend_key b ≤ legend_key a) ∧
    ∀ i, legend_key ⟨none, i⟩ = far_future :=
  ⟨List.perm_insertionSort _ l, List.sorted_insertionSort _ l, fun _ => rfl⟩

/-! ## Claim C2: the step-correction boundary -/

/-- Counterexample to claim C2 as stated: with window dates Nov 24-26 2023
(days 19685-19687) and positions `[100, 70, 69]`, the index of the first
observation at or after the cutover is 1, so the claim predicts
`step = 70 - 100 = -30` subtracted from every position at index 1 and after,
giving `[100, 100, 99]`.  The code instead computes
`step = positions[2] - positions[1] = -1` and subtracts it from index 2
onwards, giving `[100, 70, 70]`. -/
theorem step_correct_counterexample :
    bisect_left [19685, 19686, 19687] cutover = 1 ∧
    step_correct [19685, 19686, 19687] [100, 70, 69] = (-1, [100, 70, 70]) ∧
    step_correct [19685, 19686, 19687] [100, 70, 69] ≠ (-30, [100, 100, 99]) := by
  refine ⟨by decide, ?_, ?_⟩
  · norm_num [step_correct, bisect_left, cutover, List.countP, List.countP.go]
  · norm_num [step_correct, bisect_left, cutover, List.countP, List.countP.go]

/-- Claim C2 amended: let `j = bisect_left(window dates, cutover)` be the
index of the first window observation dated at or after the cutover.  When
`j ≠ 0` and `j < window length - 1`, the correction applied is
`step = position[j+1] - position[j]` (one index later than the claim's
`position[j] - position[j-1]`), and `step` is subtracted from every position
at index `j+1` and after — the boundary point `j` itself is NOT shifted. -/
theorem step_correct_amended (dates : List Int) (ps : List ℚ)
    (hj0 : bisect_left dates cutover ≠ 0)
    (hjlt : bisect_left dates cutover < dates.length - 1)
    (hlen : ps.length = dates.length) :
    (step_correct dates ps).1 =
      ps.getD (bisect_left dates cutover + 1) 0 - ps.getD (bisect_left dates cutover) 0 ∧
    (step_correct dates ps).2.length = ps.length ∧
    ∀ i, i < ps.length →
      (step_correct dates ps).2.getD i 0 =
        if i ≤ bisect_left dates cutover then ps.getD i 0
        else ps.getD i 0 - (step_correct dates ps).1 := by
  have hsc : step_correct dates ps =
      (ps.getD (bisect_left dates cutover + 1) 0 - ps.getD (bisect_left dates cutover) 0,
        ps.take (bisect_left dates cutover + 1) ++
          (ps.drop (bisect_left dates cutover + 1)).map
            (fun p => p - (ps.getD (bisect_left dates cutover + 1) 0 -
              ps.getD (bisect_left dates cutover) 0))) := by
    simp only [step_correct]
    rw [if_pos ⟨hj0, hjlt⟩]
  have hj1 : bisect_left dates cutover + 1 ≤ ps.length := by omega
  refine ⟨by rw [hsc], ?_, ?_⟩
  · rw [hsc]
    simp only [List.length_append, List.length_take, List.length_map, List.length_drop]
    omega
  · intro i hi
    rw [hsc]
    by_cases hij : i ≤ bisect_left dates cutover
    · rw [if_pos hij]
      rw [List.getD_append _ _ _ _ (by simp only [List.length_take]; omega)]
      rw [List.getD_eq_getElem?_getD, List.getD_eq_getElem?_getD, List.getElem?_take,
        if_pos (by omega)]
    · rw [if_neg hij]
      rw [List.getD_append_right _ _ _ _ (by simp only [List.length_take]; omega)]
      simp only [List.length_take, Nat.min_eq_left hj1]
      rw [List.getD_eq_getElem?_getD, List.getElem?_map, List.getElem?_drop]
      rw [show bisect_left dates cutover + 1 + (i - (bisect_left dates cutover + 1)) = i by
        omega]
      rw [List.getElem?_eq_getElem hi]
      simp only [Option.map_some', Option.getD_some]
      simp [List.getD_eq_getElem?_getD, List.getElem?_eq_getElem hi]

/-- Witness for C2 (amended) at the counterexample's window. -/
theorem step_correct_amended_witness :
    (step_correct [19685, 19686, 19687] [100, 70, 69]).1 =
      ([(100 : ℚ), 70, 69].getD (bisect_left [19685, 19686, 19687] cutover + 1) 0 -
        [(100 : ℚ), 70, 69].getD (bisect_left [19685, 19686, 19687] cutover) 0) ∧
    (step_correct [19685, 19686, 19687] [100, 70, 69]).2.length = 3 ∧
    ∀ i, i < 3 →
      (step_correct [19685, 19686, 19687] [100, 70, 69]).2.getD i 0 =
        if i ≤ bisect_left [19685, 19686, 19687] cutover
        then [(100 : ℚ), 70, 69].getD i 0
        else [(100 : ℚ), 70, 69].getD i 0 - (step_correct [19685, 19686, 19687] [100, 70, 69]).1 :=
  step_correct_amended [19685, 19686, 19687] [100, 70, 69] (by decide) (by decide) rfl

/-! ## Claim C10: one Created winner per key -/

lemma key_count_cons (e : EntryKey × EntryRow) (t : Store) (k : EntryKey) :
    key_count (e :: t) k = key_count t k + if e.1 = k then 1 else 0 := by
  simp [key_count, List.countP_cons]

lemma lookup_eq_none (s : Store) (k : EntryKey) (h : key_count s k = 0) :
    s.lookup k = none := by
  induction s with
  | nil => rfl
  | cons e t ih =>
    obtain ⟨ek, ev⟩ := e
    rw [key_count_cons] at h
    by_cases hek : ek = k
    · rw [if_pos hek] at h
      omega
    · rw [if_neg hek] at h
      have ht : key_count t k = 0 := by omega
      rw [List.lookup_cons]
      have hb : (k == ek) = false := by
        simp only [beq_eq_false_iff_ne]
        exact fun hh => hek hh.symm
      rw [hb]
      exact ih ht

lemma lookup_isSome (s : Store) (k : EntryKey) (h : key_count s k ≠ 0) :
    ∃ v, s.lookup k = some v := by
  induction s with
  | nil => simp [key_count] at h
  | cons e t ih =>
    obtain ⟨ek, ev⟩ := e
    rw [key_count_cons] at h
    by_cases hek : ek = k
    · subst hek
      exact ⟨ev, by rw [List.lookup_cons, beq_self_eq_true]⟩
    · rw [if_neg hek] at h
      obtain ⟨v, hv⟩ := ih (by omega)
      refine ⟨v, ?_⟩
      rw [List.lookup_cons]
      have hb : (k == ek) = false := by
        simp only [beq_eq_false_iff_ne]
        exact fun hh => hek hh.symm
      rw [hb]
      exact hv

lemma key_count_store_update (s : Store) (k k' : EntryKey) (v : EntryRow) :
    key_count (store_update s k v) k' = key_count s k' := by
  unfold key_count store_update
  rw [List.countP_map]
  apply List.countP_congr
  intro e he
  by_cases hek : e.1 = k
  · simp [Function.comp, hek]
  · simp [Function.comp, hek]

lemma upsert_absent_eq (s : Store) (rid d cap pos : Int) (u : Bool)
    (hl : s.lookup (rid, d) = none) :
    create_or_update_entry s rid d cap pos u = (((rid, d), (cap, pos)) :: s, .created) := by
  unfold create_or_update_entry
  rw [hl]

lemma upsert_present_eq (s : Store) (rid d cap pos : Int) (u : Bool) (v : EntryRow)
    (hv : s.lookup (rid, d) = some v) :
    create_or_update_entry s rid d cap pos u =
      if v.1 ≠ cap ∨ v.2 ≠ pos then
        if u then (store_update s (rid, d) (cap, pos), .updated) else (s, .conflict)
      else (s, .unchanged) := by
  unfold create_or_update_entry
  rw [hv]

lemma upsert_created_of_absent (s : Store) (rid d cap pos : Int) (u : Bool)
    (h : key_count s (rid, d) = 0) :
    (create_or_update_entry s rid d cap pos u).2 = .created ∧
    key_count (create_or_update_entry s rid d cap pos u).1 (rid, d) = 1 := by
  rw [upsert_absent_eq s rid d cap pos u (lookup_eq_none s (rid, d) h)]
  refine ⟨rfl, ?_⟩
  rw [key_count_cons, h, if_pos rfl]

lemma upsert_present_facts (s : Store) (rid d cap pos : Int) (u : Bool)
    (h : key_count s (rid, d) ≠ 0) :
    (create_or_update_entry s rid d cap pos u).2 ≠ .created ∧
    ((create_or_update_entry s rid d cap pos u).2 = .unchanged ∨
      (create_or_update_entry s rid d cap pos u).2 = .updated ∨
      (create_or_update_entry s rid d cap pos u).2 = .conflict) ∧
    key_count (create_or_update_entry s rid d cap pos u).1 (rid, d) = key_count s (rid, d) := by
  obtain ⟨v, hv⟩ := lookup_isSome s (rid, d) h
  rw [upsert_present_eq s rid d cap pos u v hv]
  split_ifs <;> simp [key_count_store_update]

lemma run_calls_present (rid d : Int) (cs : List Call) :
    ∀ s : Store, key_count s (rid, d) ≠ 0 →
      (run_calls s rid d cs).2.length = cs.length ∧
      (∀ r ∈ (run_calls s rid d cs).2,
        r = UpsertOutcome.unchanged ∨ r = UpsertOutcome.updated ∨ r = UpsertOutcome.conflict) ∧
      key_count (run_calls s rid d cs).1 (rid, d) = key_count s (rid, d) := by
  induction cs with
  | nil =>
    intro s _
    exact ⟨rfl, by simp [run_calls], rfl⟩
  | cons c cs ih =>
    intro s h
    have hfacts := upsert_present_facts s rid d c.capacity c.pos c.update h
    have hr := ih (create_or_update_entry s rid d c.capacity c.pos c.update).1
      (by rw [hfacts.2.2]; exact h)
    simp only [run_calls, List.length_cons, List.mem_cons]
    refine ⟨by rw [hr.1], ?_, by rw [hr.2.2, hfacts.2.2]⟩
    rintro r (rfl | hm)
    · exact hfacts.2.1
    · exact hr.2.1 r hm

lemma run_calls_le_one (rid d : Int) (cs : List Call) :
    ∀ s : Store, key_count s (rid, d) ≤ 1 →
      key_count (run_calls s rid d cs).1 (rid, d) ≤ 1 := by
  induction cs with
  | nil => exact fun s h => h
  | cons c cs ih =>
    intro s h
    simp only [run_calls]
    apply ih
    by_cases h0 : key_count s (rid, d) = 0
    · rw [(upsert_created_of_absent s rid d c.capacity c.pos c.update h0).2]
    · rw [(upsert_present_facts s rid d c.capacity c.pos c.update h0).2.2]
      exact h

/-- Claim C10: starting from a table with no row for `(room_id, date)`, any
serial order of a nonempty batch of upsert callers against that key (the
serializable check-then-act transaction reduces every concurrent run to such
a serial order) produces exactly one `created` outcome — the first call in
the order — while every other caller observes the winner's row and resolves
to `unchanged`, `updated` or `conflict`; the final table holds exactly one
row for the key and no intermediate table ever holds two. -/
theorem run_calls_exactly_one_created (s : Store) (room_id date : Int) (calls : List Call)
    (h0 : key_count s (room_id, date) = 0) (hne : calls ≠ []) :
    (run_calls s room_id date calls).2.length = calls.length ∧
    (run_calls s room_id date calls).2.countP (fun r => r = UpsertOutcome.created) = 1 ∧
    (∃ rest, (run_calls s room_id date calls).2 = UpsertOutcome.created :: rest ∧
      ∀ r ∈ rest,
        r = UpsertOutcome.unchanged ∨ r = UpsertOutcome.updated ∨ r = UpsertOutcome.conflict) ∧
    key_count (run_calls s room_id date calls).1 (room_id, date) = 1 ∧
    ∀ n, key_count (run_calls s room_id date (calls.take n)).1 (room_id, date) ≤ 1 := by
  obtain ⟨c, cs, rfl⟩ := List.exists_cons_of_ne_nil hne
  have hcre := upsert_created_of_absent s room_id date c.capacity c.pos c.update h0
  have hpres := run_calls_present room_id date cs
    (create_or_update_entry s room_id date c.capacity c.pos c.update).1
    (by rw [hcre.2]; exact one_ne_zero)
  refine ⟨?_, ?_, ?_, ?_, ?_⟩
  · simp only [run_calls, List.length_cons]
    rw [hpres.1]
  · simp only [run_calls, List.countP_cons, hcre.1]
    rw [List.countP_eq_zero.mpr ?all0]
    · simp
    case all0 =>
      intro r hm
      rcases hpres.2.1 r hm with h | h | h <;> simp [h]
  · refine ⟨(run_calls (create_or_update_entry s room_id date c.capacity c.pos c.update).1
      room_id date cs).2, ?_, hpres.2.1⟩
    simp only [run_calls]
    rw [hcre.1]
  · simp only [run_calls]
    rw [hpres.2.2, hcre.2]
  · intro n
    cases n with
    | zero => simp [run_calls, h0]
    | succ n =>
      simp only [List.take_succ_cons, run_calls]
      apply run_calls_le_one
      rw [hcre.2]

/-- Witness for C10: three concurrent callers (the second identical to the
first, the third different with the update policy) against an empty table. -/
theorem run_calls_exactly_one_created_witness :
    key_count ([] : Store) ((1 : Int), (19686 : Int)) = 0 ∧
    (([⟨5, 10, false⟩, ⟨5, 10, false⟩, ⟨6, 11, true⟩] : List Call) ≠ []) ∧
    ((run_calls ([] : Store) 1 19686 [⟨5, 10, false⟩, ⟨5, 10, false⟩, ⟨6, 11, true⟩]).2.length = 3 ∧
      (run_calls ([] : Store) 1 19686
          [⟨5, 10, false⟩, ⟨5, 10, false⟩, ⟨6, 11, true⟩]).2.countP
        (fun r => r = UpsertOutcome.created) = 1 ∧
      (∃ rest, (run_calls ([] : Store) 1 19686
          [⟨5, 10, false⟩, ⟨5, 10, false⟩, ⟨6, 11, true⟩]).2 = UpsertOutcome.created :: rest ∧
        ∀ r ∈ rest,
          r = UpsertOutcome.unchanged ∨ r = UpsertOutcome.updated ∨ r = UpsertOutcome.conflict) ∧
      key_count (run_calls ([] : Store) 1 19686
        [⟨5, 10, false⟩, ⟨5, 10, false⟩, ⟨6, 11, true⟩]).1 (1, 19686) = 1 ∧
      ∀ n, key_count (run_calls ([] : Store) 1 19686
        ([⟨5, 10, false⟩, ⟨5, 10, false⟩, ⟨6, 11, true⟩].take n)).1 (1, 19686) ≤ 1) :=
  ⟨rfl, by decide,
    run_calls_exactly_one_created [] 1 19686 [⟨5, 10, false⟩, ⟨5, 10, false⟩, ⟨6, 11, true⟩]
      rfl (by decide)⟩

/-! ## Least-squares facts about `olsFit` -/

lemma sx_cons (t : Int) (ts : List Int) : sx (t :: ts) = (t : ℚ) + sx ts := by
  simp [sx]

lemma sxx_cons (t : Int) (ts : List Int) : sxx (t :: ts) = (t : ℚ) ^ 2 + sxx ts := by
  simp [sxx]

lemma sxy_cons (t : Int) (p : ℚ) (ts : List Int) (ps : List ℚ) :
    sxy (t :: ts) (p :: ps) = (t : ℚ) * p + sxy ts ps := by
  simp [sxy]

lemma sse_cons (t : Int) (p : ℚ) (ts : List Int) (ps : List ℚ) (m c : ℚ) :
    sse (t :: ts) (p :: ps) m c = (p - (m * (t : ℚ) + c)) ^ 2 + sse ts ps m c := by
  simp [sse]

lemma sse_expand (ts : List Int) (ps : List ℚ) (h : ts.length = ps.length) (m c : ℚ) :
    sse ts ps m c =
      (ps.map (fun p => p ^ 2)).sum + m ^ 2 * sxx ts + (ts.length : ℚ) * c ^ 2
        - 2 * m * sxy ts ps - 2 * c * ps.sum + 2 * m * c * sx ts := by
  induction ts generalizing ps with
  | nil =>
    obtain rfl : ps = [] := List.length_eq_zero.mp h.symm
    simp [sse, sxx, sxy, sx]
  | cons t ts ih =>
    cases ps with
    | nil => simp at h
    | cons p ps =>
      have h' : ts.length = ps.length := by simpa using h
      rw [sse_cons, ih ps h', sxx_cons, sxy_cons, sx_cons]
      simp only [List.map_cons, List.sum_cons, List.length_cons]
      push_cast
      ring

lemma sq_dist_sum (t : Int) (ts : List Int) :
    (ts.map (fun s : Int => ((t : ℚ) - (s : ℚ)) ^ 2)).sum =
      (ts.length : ℚ) * (t : ℚ) ^ 2 - 2 * (t : ℚ) * sx ts + sxx ts := by
  induction ts with
  | nil => simp [sx, sxx]
  | cons s ts ih =>
    simp only [List.map_cons, List.sum_cons, ih, sx_cons, sxx_cons, List.length_cons]
    push_cast
    ring

lemma denom_cons (t : Int) (ts : List Int) :
    denom (t :: ts) = denom ts + (ts.map (fun s : Int => ((t : ℚ) - (s : ℚ)) ^ 2)).sum := by
  rw [sq_dist_sum]
  simp only [denom, sxx_cons, sx_cons, List.length_cons]
  push_cast
  ring

lemma denom_nonneg (ts : List Int) : 0 ≤ denom ts := by
  induction ts with
  | nil => simp [denom, sx, sxx]
  | cons t ts ih =>
    rw [denom_cons]
    have hs : 0 ≤ (ts.map (fun s : Int => ((t : ℚ) - (s : ℚ)) ^ 2)).sum := by
      apply List.sum_nonneg
      intro x hx
      obtain ⟨s, _, rfl⟩ := List.mem_map.mp hx
      positivity
    linarith

lemma denom_pos (a b : Int) (ts : List Int) (hab : a ≠ b) :
    0 < denom (a :: b :: ts) := by
  rw [denom_cons]
  have h1 : 0 ≤ denom (b :: ts) := denom_nonneg _
  have h2 : ((b :: ts).map (fun s : Int => ((a : ℚ) - (s : ℚ)) ^ 2)).sum =
      ((a : ℚ) - (b : ℚ)) ^ 2 + (ts.map (fun s : Int => ((a : ℚ) - (s : ℚ)) ^ 2)).sum := by
    simp
  have h3 : 0 < ((a : ℚ) - (b : ℚ)) ^ 2 := by
    have hne : ((a : ℚ) - (b : ℚ)) ≠ 0 := sub_ne_zero.mpr (by exact_mod_cast hab)
    positivity
  have h4 : 0 ≤ (ts.map (fun s : Int => ((a : ℚ) - (s : ℚ)) ^ 2)).sum := by
    apply List.sum_nonneg
    intro x hx
    obtain ⟨s, _, rfl⟩ := List.mem_map.mp hx
    positivity
  rw [h2]
  linarith

lemma ols_key (n X S Y Q m c : ℚ) (hn : 0 < n) (hD : 0 < n * X - S ^ 2) :
    ((n * Q - S * Y) / (n * X - S ^ 2)) ^ 2 * X +
        n * ((Y - (n * Q - S * Y) / (n * X - S ^ 2) * S) / n) ^ 2 -
        2 * ((n * Q - S * Y) / (n * X - S ^ 2)) * Q -
        2 * ((Y - (n * Q - S * Y) / (n * X - S ^ 2) * S) / n) * Y +
        2 * ((n * Q - S * Y) / (n * X - S ^ 2)) *
          ((Y - (n * Q - S * Y) / (n * X - S ^ 2) * S) / n) * S ≤
      m ^ 2 * X + n * c ^ 2 - 2 * m * Q - 2 * c * Y + 2 * m * c * S := by
  have hD' : n * X - S ^ 2 ≠ 0 := ne_of_gt hD
  have hn' : n ≠ 0 := ne_of_gt hn
  set m0 := (n * Q - S * Y) / (n * X - S ^ 2) with hm0
  set c0 := (Y - m0 * S) / n with hc0
  have key : (m ^ 2 * X + n * c ^ 2 - 2 * m * Q - 2 * c * Y + 2 * m * c * S) -
      (m0 ^ 2 * X + n * c0 ^ 2 - 2 * m0 * Q - 2 * c0 * Y + 2 * m0 * c0 * S) =
      n * ((c - c0) + (S / n) * (m - m0)) ^ 2 +
        ((n * X - S ^ 2) / n) * (m - m0) ^ 2 := by
    rw [hc0, hm0]
    field_simp
    ring
  have h1 : 0 ≤ n * ((c - c0) + (S / n) * (m - m0)) ^ 2 :=
    mul_nonneg hn.le (sq_nonneg _)
  have h2 : 0 ≤ ((n * X - S ^ 2) / n) * (m - m0) ^ 2 :=
    mul_nonneg (div_nonneg hD.le hn.le) (sq_nonneg _)
  linarith

/-- With a nonzero normal-equation denominator, the pair returned by `olsFit`
minimises the sum of squared errors over all candidate lines: it IS the
ordinary least-squares fit. -/
lemma olsFit_least_squares (ts : List Int) (ps : List ℚ) (h : ts.length = ps.length)
    (hd : denom ts ≠ 0) (m c : ℚ) :
    sse ts ps (olsFit ts ps).1 (olsFit ts ps).2 ≤ sse ts ps m c := by
  have hd0 : 0 < denom ts := lt_of_le_of_ne (denom_nonneg ts) (Ne.symm hd)
  have hne : ts ≠ [] := by
    rintro rfl
    simp [denom, sx, sxx] at hd
  have hnpos : (0 : ℚ) < (ts.length : ℚ) := by
    exact_mod_cast List.length_pos.mpr hne
  have hDpos : (0 : ℚ) < (ts.length : ℚ) * sxx ts - sx ts ^ 2 := hd0
  rw [olsFit, if_neg hd]
  dsimp only
  rw [sse_expand ts ps h, sse_expand ts ps h]
  simp only [denom]
  have := ols_key (ts.length : ℚ) (sxx ts) (sx ts) ps.sum (sxy ts ps) m c hnpos hDpos
  linarith

lemma sum_map_add (ps : List ℚ) (S : ℚ) :
    (ps.map (fun p => p + S)).sum = ps.sum + (ps.length : ℚ) * S := by
  induction ps with
  | nil => simp
  | cons p ps ih =>
    simp only [List.map_cons, List.sum_cons, ih, List.length_cons]
    push_cast
    ring

lemma sxy_map_add (ts : List Int) (ps : List ℚ) (S : ℚ) (h : ts.length = ps.length) :
    sxy ts (ps.map (fun p => p + S)) = sxy ts ps + S * sx ts := by
  induction ts generalizing ps with
  | nil => simp [sxy, sx]
  | cons t ts ih =>
    cases ps with
    | nil => simp at h
    | cons p ps =>
      have h' : ts.length = ps.length := by simpa using h
      simp only [List.map_cons, sxy_cons, ih ps h', sx_cons]
      ring

/-- Shifting every ordinate by a constant `S` shifts the fitted intercept by
`S` and leaves the fitted slope unchanged. -/
lemma olsFit_map_add (ts : List Int) (ps : List ℚ) (S : ℚ)
    (h : ts.length = ps.length) (hne : ts ≠ []) :
    olsFit ts (ps.map (fun p => p + S)) = ((olsFit ts ps).1, (olsFit ts ps).2 + S) := by
  have hl0 : ts.length ≠ 0 := (List.length_pos.mpr hne).ne'
  have hn0 : (ts.length : ℚ) ≠ 0 := Nat.cast_ne_zero.mpr hl0
  unfold olsFit
  rw [sxy_map_add ts ps S h, sum_map_add ps S, ← h]
  by_cases hd : denom ts = 0
  · rw [if_pos hd, if_pos hd, if_neg hl0, if_neg hl0, Prod.mk.injEq]
    refine ⟨rfl, ?_⟩
    field_simp
    ring
  · rw [if_neg hd, if_neg hd, Prod.mk.injEq]
    constructor
    · congr 1
      ring
    · field_simp
      ring

/-! ## Claim C3: the ETA formula -/

/-- Claim C3: whenever `regress` returns a fit `(m, c, eta)`, then when
`|m| > 1e-8` the ETA is the window's first date plus `round(-c/m)` days, and
when `|m| ≤ 1e-8` the ETA is undefined (`none`); in particular, for the
history `[(d0, 100), (d0+10, 50)]` with `asOf = d0+10` the fit gives
`m = -5` per day, `c = 100`, and `eta = d0 + 20`. -/
theorem regress_eta_formula :
    (∀ dates ps maxD gd dd (m c : ℚ) (e : Option Int),
      regress dates ps maxD gd dd = some (m, c, e) →
        (1 / 100000000 < |m| → e = some (dates.getD 0 0 + round_half_even (-c / m))) ∧
        (|m| ≤ 1 / 100000000 → e = none)) ∧
    ∀ d0 gd : Int, regress [d0, d0 + 10] [100, 50] (d0 + 10) gd 0 =
      some (-5, 100, some (d0 + 20)) := by
  constructor
  · intro dates ps maxD gd dd m c e h
    simp only [regress] at h
    by_cases hb : bisect_right dates (maxD - dd) = 0
    · rw [if_pos hb] at h
      exact absurd h (by simp)
    · rw [if_neg hb, Option.some.injEq, Prod.mk.injEq, Prod.mk.injEq] at h
      obtain ⟨hm, hc, he⟩ := h
      subst hm
      subst hc
      subst he
      constructor
      · intro habs
        rw [if_pos habs]
      · intro habs
        rw [if_neg (not_lt.mpr habs)]
  · intro d0 gd
    have hbr : bisect_right [d0, d0 + 10] (d0 + 10 - 0) = 2 := by
      simp only [bisect_right, List.countP_cons, List.countP_nil]
      have e1 : (d0 ≤ d0 + 10 - 0) := by omega
      have e2 : (d0 + 10 ≤ d0 + 10 - 0) := by omega
      simp [e1, e2]
    have htake1 : List.take 2 [d0, d0 + 10] = [d0, d0 + 10] :=
      List.take_of_length_le (by simp)
    have htake2 : List.take 2 [(100 : ℚ), 50] = [100, 50] :=
      List.take_of_length_le (by simp)
    have hsc : step_correct [d0, d0 + 10] [(100 : ℚ), 50] = (0, [100, 50]) := by
      simp only [step_correct]
      rw [if_neg]
      rintro ⟨h1, h2⟩
      simp only [List.length_cons, List.length_nil] at h2
      omega
    have hti : dates_to_ints d0 [d0, d0 + 10] = [0, 10] := by
      simp [dates_to_ints]
    have hfit : olsFit [0, 10] [(100 : ℚ), 50] = (-5, 100) := by
      norm_num [olsFit, denom, sx, sxx, sxy]
    simp only [regress]
    rw [hbr, if_neg (by omega), htake1, htake2, hsc]
    dsimp only
    simp only [List.getD_cons_zero]
    rw [if_pos (by simp), hti, hfit]
    norm_num [round_half_even]

/-- Witness for C3: both directions of the ETA formula applied at the
concrete two-point history of the claim. -/
theorem regress_eta_formula_witness :
    regress [0, 10] [100, 50] 10 0 0 = some (-5, 100, some 20) ∧
    (1 / 100000000 < |(-5 : ℚ)| →
      (some 20 : Option Int) =
        some (([0, 10] : List Int).getD 0 0 + round_half_even (-(100 : ℚ) / (-5)))) ∧
    (|(-5 : ℚ)| ≤ 1 / 100000000 → (some 20 : Option Int) = none) := by
  have h : regress [0, 10] [100, 50] 10 0 0 = some (-5, 100, some 20) := by
    simpa using regress_eta_formula.2 0 0
  have h2 := regress_eta_formula.1 [0, 10] [100, 50] 10 0 0 (-5) 100 (some 20) h
  exact ⟨h, h2.1, h2.2⟩

/-! ## Claim C5: least-squares fit on the window, single-point fallback -/

lemma step_correct_length (dates : List Int) (ps : List ℚ) (h : dates.length ≤ ps.length) :
    (step_correct dates ps).2.length = ps.length := by
  simp only [step_correct]
  split_ifs with hg
  · obtain ⟨hg1, hg2⟩ := hg
    simp only [List.length_append, List.length_take, List.length_map, List.length_drop]
    omega
  · rfl

lemma step_correct_singleton (dates : List Int) (ps : List ℚ) (h : dates.length ≤ 1) :
    step_correct dates ps = (0, ps) := by
  simp only [step_correct]
  rw [if_neg]
  rintro ⟨h1, h2⟩
  omega

/-- Claim C5: with at least two qualifying points, `regress` fits
`position = m·t + c` by ordinary least squares — the returned `m` together
with the de-biased intercept `c - step` minimises the sum of squared errors
on the step-corrected window over `t` = whole days since the window's first
date; with exactly one qualifying point it returns `m = 0`, `c` = that
point's position, and an undefined ETA; in particular
`regress [d0] [100]` at `asOf = d0` is `m = 0`, `c = 100`, `eta` undefined. -/
theorem regress_fit_least_squares :
    (∀ dates ps maxD gd dd, ps.length = dates.length → List.Chain' (· < ·) dates →
      2 ≤ bisect_right dates (maxD - dd) →
      ∃ m c e, regress dates ps maxD gd dd = some (m, c, e) ∧
        ∀ m' c' : ℚ,
          sse (dates_to_ints (dates.getD 0 0) (dates.take (bisect_right dates (maxD - dd))))
              (step_correct (dates.take (bisect_right dates (maxD - dd)))
                (ps.take (bisect_right dates (maxD - dd)))).2 m
              (c - (step_correct (dates.take (bisect_right dates (maxD - dd)))
                (ps.take (bisect_right dates (maxD - dd)))).1) ≤
            sse (dates_to_ints (dates.getD 0 0) (dates.take (bisect_right dates (maxD - dd))))
              (step_correct (dates.take (bisect_right dates (maxD - dd)))
                (ps.take (bisect_right dates (maxD - dd)))).2 m' c') ∧
    (∀ dates ps maxD gd dd, ps.length = dates.length →
      bisect_right dates (maxD - dd) = 1 →
      regress dates ps maxD gd dd = some (0, ps.getD 0 0, none)) ∧
    ∀ d0 gd : Int, regress [d0] [100] d0 gd 0 = some (0, 100, none) := by
  have part2 : ∀ dates ps maxD gd dd, ps.length = dates.length →
      bisect_right dates (maxD - dd) = 1 →
      regress dates ps maxD gd dd = some (0, ps.getD 0 0, none) := by
    intro dates ps maxD gd dd hlen hbis1
    have hble : 1 ≤ dates.length := by
      have := List.countP_le_length (fun d => decide (d ≤ maxD - dd)) (l := dates)
      rw [bisect_right] at hbis1
      omega
    simp only [regress]
    rw [hbis1, if_neg one_ne_zero,
      step_correct_singleton _ _ (by simp only [List.length_take]; omega),
      if_neg (by simp only [List.length_take]; omega)]
    dsimp only
    have hg : (ps.take 1).getD 0 0 = ps.getD 0 0 := by
      rw [List.getD_eq_getElem?_getD, List.getElem?_take, if_pos Nat.one_pos,
        ← List.getD_eq_getElem?_getD]
    rw [hg]
    norm_num
  refine ⟨?_, part2, ?_⟩
  · intro dates ps maxD gd dd hlen hchain hbis2
    have hbisle : bisect_right dates (maxD - dd) ≤ dates.length :=
      List.countP_le_length _
    match dates, hlen, hchain, hbis2, hbisle with
    | [], hlen, hchain, hbis2, hbisle => simp [bisect_right] at hbis2
    | [a], hlen, hchain, hbis2, hbisle =>
      simp at hbisle
      omega
    | a :: b :: r, hlen, hchain, hbis2, hbisle =>
    have hab : a < b := (List.chain'_cons.mp hchain).1
    obtain ⟨k, hk⟩ : ∃ k, bisect_right (a :: b :: r) (maxD - dd) = k + 2 :=
      ⟨bisect_right (a :: b :: r) (maxD - dd) - 2, by omega⟩
    have htake : (a :: b :: r).take (bisect_right (a :: b :: r) (maxD - dd)) =
        a :: b :: r.take k := by
      rw [hk]
      simp [List.take_succ_cons]
    have hts : dates_to_ints ((a :: b :: r).getD 0 0)
        ((a :: b :: r).take (bisect_right (a :: b :: r) (maxD - dd))) =
        (a - a) :: (b - a) :: (r.take k).map (fun d => d - a) := by
      rw [htake]
      simp [dates_to_ints]
    have hd : denom (dates_to_ints ((a :: b :: r).getD 0 0)
        ((a :: b :: r).take (bisect_right (a :: b :: r) (maxD - dd)))) ≠ 0 := by
      rw [hts]
      exact (denom_pos (a - a) (b - a) _ (by omega)).ne'
    have hlents : (dates_to_ints ((a :: b :: r).getD 0 0)
        ((a :: b :: r).take (bisect_right (a :: b :: r) (maxD - dd)))).length =
        bisect_right (a :: b :: r) (maxD - dd) := by
      simp only [dates_to_ints, List.length_map, List.length_take]
      omega
    have hlensc : (step_correct ((a :: b :: r).take (bisect_right (a :: b :: r) (maxD - dd)))
        ((ps.take (bisect_right (a :: b :: r) (maxD - dd))))).2.length =
        bisect_right (a :: b :: r) (maxD - dd) := by
      rw [step_correct_length]
      · simp only [List.length_take]
        omega
      · simp only [List.length_take]
        omega
    simp only [regress]
    rw [if_neg (by omega)]
    rw [if_pos (by simp only [List.length_take]; omega)]
    refine ⟨_, _, _, rfl, ?_⟩
    intro m' c'
    rw [show (olsFit (dates_to_ints ((a :: b :: r).getD 0 0)
          ((a :: b :: r).take (bisect_right (a :: b :: r) (maxD - dd))))
          (step_correct ((a :: b :: r).take (bisect_right (a :: b :: r) (maxD - dd)))
            (ps.take (bisect_right (a :: b :: r) (maxD - dd)))).2).2 +
        (step_correct ((a :: b :: r).take (bisect_right (a :: b :: r) (maxD - dd)))
          (ps.take (bisect_right (a :: b :: r) (maxD - dd)))).1 -
        (step_correct ((a :: b :: r).take (bisect_right (a :: b :: r) (maxD - dd)))
          (ps.take (bisect_right (a :: b :: r) (maxD - dd)))).1 =
        (olsFit (dates_to_ints ((a :: b :: r).getD 0 0)
          ((a :: b :: r).take (bisect_right (a :: b :: r) (maxD - dd))))
          (step_correct ((a :: b :: r).take (bisect_right (a :: b :: r) (maxD - dd)))
            (ps.take (bisect_right (a :: b :: r) (maxD - dd)))).2).2 from by ring]
    exact olsFit_least_squares _ _ (by rw [hlents, hlensc]) hd m' c'
  · intro d0 gd
    have hb : bisect_right [d0] (d0 - 0) = 1 := by
      simp [bisect_right]
    simpa using part2 [d0] [100] d0 gd 0 rfl hb

/-- Witness for C5: the two-point history `[(0, 100), (10, 50)]` (for the
least-squares part) and the one-point history `[(0, 100)]`. -/
theorem regress_fit_least_squares_witness :
    (∃ m c e, regress [0, 10] [100, 50] 10 0 0 = some (m, c, e) ∧
      ∀ m' c' : ℚ,
        sse (dates_to_ints (([0, 10] : List Int).getD 0 0)
            (([0, 10] : List Int).take (bisect_right [0, 10] (10 - 0))))
            (step_correct (([0, 10] : List Int).take (bisect_right [0, 10] (10 - 0)))
              (([100, 50] : List ℚ).take (bisect_right [0, 10] (10 - 0)))).2 m
            (c - (step_correct (([0, 10] : List Int).take (bisect_right [0, 10] (10 - 0)))
              (([100, 50] : List ℚ).take (bisect_right [0, 10] (10 - 0)))).1) ≤
          sse (dates_to_ints (([0, 10] : List Int).getD 0 0)
            (([0, 10] : List Int).take (bisect_right [0, 10] (10 - 0))))
            (step_correct (([0, 10] : List Int).take (bisect_right [0, 10] (10 - 0)))
              (([100, 50] : List ℚ).take (bisect_right [0, 10] (10 - 0)))).2 m' c') ∧
    regress [0] [100] 0 0 0 = some (0, 100, none) :=
  ⟨regress_fit_least_squares.1 [0, 10] [100, 50] 10 0 0 rfl
      (by norm_num [List.chain'_cons]) (by decide),
    regress_fit_least_squares.2.2 0 0⟩

/-! ## Claim C6: drift metrics -/

/-- Claim C6: the drifts are `deta_1d = eta - eta_1d` and
`deta_1w = eta - eta_1w` in whole days, where `eta_1d`/`eta_1w` are the ETAs
recomputed with the window's right edge pulled back by 1 and 7 days; each
drift is `none` when either operand is; and when the pulled-back window has
zero qualifying points the corresponding ETA and drift are `none` rather
than an error. -/
theorem compute_regression_drift (dates : List Int) (ps : List ℚ) (maxD gd : Int) :
    (compute_regression dates ps maxD gd).eta =
      (unpack3 (regress dates ps maxD gd 0)).2.2 ∧
    (∀ a b : Int, (unpack3 (regress dates ps maxD gd 0)).2.2 = some a →
      (unpack3 (regress dates ps maxD gd 1)).2.2 = some b →
      (compute_regression dates ps maxD gd).deta_1d = some (a - b)) ∧
    (∀ a b : Int, (unpack3 (regress dates ps maxD gd 0)).2.2 = some a →
      (unpack3 (regress dates ps maxD gd 7)).2.2 = some b →
      (compute_regression dates ps maxD gd).deta_1w = some (a - b)) ∧
    ((unpack3 (regress dates ps maxD gd 0)).2.2 = none ∨
        (unpack3 (regress dates ps maxD gd 1)).2.2 = none →
      (compute_regression dates ps maxD gd).deta_1d = none) ∧
    ((unpack3 (regress dates ps maxD gd 0)).2.2 = none ∨
        (unpack3 (regress dates ps maxD gd 7)).2.2 = none →
      (compute_regression dates ps maxD gd).deta_1w = none) ∧
    (bisect_right dates (maxD - 1) = 0 →
      (unpack3 (regress dates ps maxD gd 1)).2.2 = none ∧
      (compute_regression dates ps maxD gd).deta_1d = none) ∧
    (bisect_right dates (maxD - 7) = 0 →
      (unpack3 (regress dates ps maxD gd 7)).2.2 = none ∧
      (compute_regression dates ps maxD gd).deta_1w = none) := by
  have hosub_ss : ∀ (x y : Option Int) (a b : Int),
      x = some a → y = some b → osub x y = some (a - b) := by
    rintro x y a b rfl rfl
    rfl
  have hosub_none : ∀ x y : Option Int, x = none ∨ y = none → osub x y = none := by
    rintro x y (rfl | rfl)
    · rfl
    · cases x <;> rfl
  have hreg1 : bisect_right dates (maxD - 1) = 0 → regress dates ps maxD gd 1 = none := by
    intro h0
    simp only [regress]
    rw [h0, if_pos rfl]
  have hreg7 : bisect_right dates (maxD - 7) = 0 → regress dates ps maxD gd 7 = none := by
    intro h0
    simp only [regress]
    rw [h0, if_pos rfl]
  refine ⟨rfl, ?_, ?_, ?_, ?_, ?_, ?_⟩
  · intro a b ha hb
    show osub (unpack3 (regress dates ps maxD gd 0)).2.2
        (unpack3 (regress dates ps maxD gd 1)).2.2 = some (a - b)
    exact hosub_ss _ _ a b ha hb
  · intro a b ha hb
    show osub (unpack3 (regress dates ps maxD gd 0)).2.2
        (unpack3 (regress dates ps maxD gd 7)).2.2 = some (a - b)
    exact hosub_ss _ _ a b ha hb
  · intro hor
    show osub (unpack3 (regress dates ps maxD gd 0)).2.2
        (unpack3 (regress dates ps maxD gd 1)).2.2 = none
    exact hosub_none _ _ hor
  · intro hor
    show osub (unpack3 (regress dates ps maxD gd 0)).2.2
        (unpack3 (regress dates ps maxD gd 7)).2.2 = none
    exact hosub_none _ _ hor
  · intro h0
    refine ⟨by rw [hreg1 h0]; rfl, ?_⟩
    show osub (unpack3 (regress dates ps maxD gd 0)).2.2
        (unpack3 (regress dates ps maxD gd 1)).2.2 = none
    apply hosub_none
    right
    rw [hreg1 h0]
    rfl
  · intro h0
    refine ⟨by rw [hreg7 h0]; rfl, ?_⟩
    show osub (unpack3 (regress dates ps maxD gd 0)).2.2
        (unpack3 (regress dates ps maxD gd 7)).2.2 = none
    apply hosub_none
    right
    rw [hreg7 h0]
    rfl

/-- Witness for C6: the three-point history `[(0, 30), (1, 20), (2, 10)]` at
`asOf = 2`: the day-back ETA is defined (drift 0) and the week-back window is
empty, so that ETA and drift are `none`. -/
theorem compute_regression_drift_witness :
    (unpack3 (regress [0, 1, 2] [30, 20, 10] 2 0 0)).2.2 = some 3 ∧
    (unpack3 (regress [0, 1, 2] [30, 20, 10] 2 0 1)).2.2 = some 3 ∧
    (compute_regression [0, 1, 2] [30, 20, 10] 2 0).deta_1d = some 0 ∧
    bisect_right [0, 1, 2] (2 - 7) = 0 ∧
    (compute_regression [0, 1, 2] [30, 20, 10] 2 0).deta_1w = none := by
  have h := compute_regression_drift [0, 1, 2] [30, 20, 10] 2 0
  have e0 : (unpack3 (regress [0, 1, 2] [30, 20, 10] 2 0 0)).2.2 = some 3 := by
    norm_num [regress, bisect_right, step_correct, bisect_left, cutover, olsFit, denom,
      dates_to_ints, sx, sxx, sxy, round_half_even, unpack3,
      List.countP_cons, List.countP_nil]
  have e1 : (unpack3 (regress [0, 1, 2] [30, 20, 10] 2 0 1)).2.2 = some 3 := by
    norm_num [regress, bisect_right, step_correct, bisect_left, cutover, olsFit, denom,
      dates_to_ints, sx, sxx, sxy, round_half_even, unpack3,
      List.countP_cons, List.countP_nil]
  have hb : bisect_right [0, 1, 2] (2 - 7) = 0 := by decide
  refine ⟨e0, e1, ?_, hb, (h.2.2.2.2.2.2 hb).2⟩
  have := h.2.1 3 3 e0 e1
  simpa using this

/-! ## Claim C4: step-jump invariance of the fitted line -/

/-- Counterexample to claim C4 as stated: the history
`[100, 95, 60, 55]` over Nov 23-26 2023 carries a single additive jump of
`-30` at the cutover point (the first observation at or after Nov 25, index
2).  Its projection is NOT identical to that of the history with the jump
manually removed — neither in the pre-jump frame `[100, 95, 90, 85]` nor in
the post-jump frame `[70, 65, 60, 55]`: the code corrects at index
`bis_step + 1`, one observation later than where this jump sits, so even the
slope differs (`-31/2` against `-7/2`). -/
theorem regress_jump_counterexample :
    regress [19684, 19685, 19686, 19687] [100, 95, 60, 55] 19687 0 0 =
      some (-31 / 2, 97, some 19690) ∧
    regress [19684, 19685, 19686, 19687] [100, 95, 90, 85] 19687 0 0 =
      some (-7 / 2, 94, some 19711) ∧
    regress [19684, 19685, 19686, 19687] [70, 65, 60, 55] 19687 0 0 =
      some (-7 / 2, 64, some 19702) ∧
    regress [19684, 19685, 19686, 19687] [100, 95, 60, 55] 19687 0 0 ≠
      regress [19684, 19685, 19686, 19687] [100, 95, 90, 85] 19687 0 0 ∧
    regress [19684, 19685, 19686, 19687] [100, 95, 60, 55] 19687 0 0 ≠
      regress [19684, 19685, 19686, 19687] [70, 65, 60, 55] 19687 0 0 := by
  have h1 : regress [19684, 19685, 19686, 19687] [100, 95, 60, 55] 19687 0 0 =
      some (-31 / 2, 97, some 19690) := by
    norm_num [regress, bisect_right, step_correct, bisect_left, cutover, olsFit, denom,
      dates_to_ints, sx, sxx, sxy, round_half_even, List.countP_cons, List.countP_nil]
    intro hx
    norm_num [abs_of_pos] at hx
  have h2 : regress [19684, 19685, 19686, 19687] [100, 95, 90, 85] 19687 0 0 =
      some (-7 / 2, 94, some 19711) := by
    norm_num [regress, bisect_right, step_correct, bisect_left, cutover, olsFit, denom,
      dates_to_ints, sx, sxx, sxy, round_half_even, List.countP_cons, List.countP_nil]
    intro hx
    norm_num [abs_of_pos] at hx
  have h3 : regress [19684, 19685, 19686, 19687] [70, 65, 60, 55] 19687 0 0 =
      some (-7 / 2, 64, some 19702) := by
    norm_num [regress, bisect_right, step_correct, bisect_left, cutover, olsFit, denom,
      dates_to_ints, sx, sxx, sxy, round_half_even, List.countP_cons, List.countP_nil]
    intro hx
    norm_num [abs_of_pos] at hx
  refine ⟨h1, h2, h3, ?_, ?_⟩
  · rw [h1, h2]
    intro hcon
    rw [Option.some.injEq, Prod.mk.injEq] at hcon
    have := hcon.1
    norm_num at this
  · rw [h1, h3]
    intro hcon
    rw [Option.some.injEq, Prod.mk.injEq] at hcon
    have := hcon.1
    norm_num at this

lemma jump_getD (q : List ℚ) (S : ℚ) (j : Nat) (hj : j + 1 < q.length) :
    (q.take (j + 1) ++ (q.drop (j + 1)).map (fun x => x + S)).getD j 0 = q.getD j 0 ∧
    (q.take (j + 1) ++ (q.drop (j + 1)).map (fun x => x + S)).getD (j + 1) 0 =
      q.getD (j + 1) 0 + S := by
  constructor
  · rw [List.getD_append _ _ _ _ (by simp only [List.length_take]; omega)]
    rw [List.getD_eq_getElem?_getD, List.getD_eq_getElem?_getD, List.getElem?_take,
      if_pos (by omega)]
  · rw [List.getD_append_right _ _ _ _ (by simp only [List.length_take]; omega)]
    simp only [List.length_take, Nat.min_eq_left (show j + 1 ≤ q.length by omega),
      Nat.sub_self]
    rw [List.getD_eq_getElem?_getD, List.getElem?_map, List.getElem?_drop, Nat.add_zero,
      List.getElem?_eq_getElem hj]
    rw [List.getD_eq_getElem?_getD, List.getElem?_eq_getElem hj]
    rfl

lemma jump_take_drop (q : List ℚ) (S : ℚ) (j : Nat) (hj : j + 1 ≤ q.length) :
    (q.take (j + 1) ++ (q.drop (j + 1)).map (fun x => x + S)).take (j + 1) = q.take (j + 1) ∧
    (q.take (j + 1) ++ (q.drop (j + 1)).map (fun x => x + S)).drop (j + 1) =
      (q.drop (j + 1)).map (fun x => x + S) := by
  have hl : (q.take (j + 1)).length = j + 1 := by
    simp only [List.length_take]
    omega
  exact ⟨List.take_left' hl, List.drop_left' hl⟩

lemma map_add_getD (q : List ℚ) (S : ℚ) (i : Nat) (hi : i < q.length) :
    (q.map (fun x => x + S)).getD i 0 = q.getD i 0 + S := by
  rw [List.getD_eq_getElem?_getD, List.getElem?_map, List.getElem?_eq_getElem hi,
    List.getD_eq_getElem?_getD, List.getElem?_eq_getElem hi]
  rfl

/-- Claim C4 amended: take a jump-free series `q` over a window of dates that
spans the cutover, and insert a single additive jump `S` right after the
code's correction boundary — i.e. the observed positions are `q` on indices
`0..j` and `q + S` from index `j+1` on, where `j = bisect_left(dates,
cutover)` (one observation later than the claim's "at the cutover point"),
with `j ≠ 0` and `j + 1 < window size` and the window covering the whole
history.  Then the projection equals — in `m`, re-biased `c`, and `eta`
alike — the projection of the jump-free series expressed wholly in the
post-jump frame (`q + S` everywhere): the fitted line is unaffected by the
discontinuity, up to the deliberate re-bias into the newest numbering frame.
It does NOT equal the projection of the pre-frame series `q` itself (`c` and
`eta` shift with the frame), and for a jump located at the claim's stated
index the equivalence fails altogether (see the counterexample). -/
theorem regress_jump_invariant (dates : List Int) (q : List ℚ) (S : ℚ)
    (maxD gd dd : Int)
    (hlen : q.length = dates.length)
    (hfull : bisect_right dates (maxD - dd) = dates.length)
    (hj0 : bisect_left dates cutover ≠ 0)
    (hjlt : bisect_left dates cutover < dates.length - 1) :
    regress dates
      (q.take (bisect_left dates cutover + 1) ++
        (q.drop (bisect_left dates cutover + 1)).map (fun x => x + S))
      maxD gd dd =
    regress dates (q.map (fun x => x + S)) maxD gd dd := by
  have hj1d : bisect_left dates cutover + 1 < dates.length := by omega
  have hj1q : bisect_left dates cutover + 1 < q.length := by omega
  have hΔ := jump_getD q S (bisect_left dates cutover) hj1q
  have hTD := jump_take_drop q S (bisect_left dates cutover) (by omega)
  have hscP : step_correct dates
      (q.take (bisect_left dates cutover + 1) ++
        (q.drop (bisect_left dates cutover + 1)).map (fun x => x + S)) =
      (q.getD (bisect_left dates cutover + 1) 0 + S - q.getD (bisect_left dates cutover) 0,
        q.take (bisect_left dates cutover + 1) ++
          ((q.drop (bisect_left dates cutover + 1)).map (fun x => x + S)).map
            (fun x => x - (q.getD (bisect_left dates cutover + 1) 0 + S -
              q.getD (bisect_left dates cutover) 0))) := by
    simp only [step_correct]
    rw [if_pos ⟨hj0, hjlt⟩, hΔ.1, hΔ.2, hTD.1, hTD.2]
  have hscQ : step_correct dates (q.map (fun x => x + S)) =
      (q.getD (bisect_left dates cutover + 1) 0 + S -
          (q.getD (bisect_left dates cutover) 0 + S),
        (q.take (bisect_left dates cutover + 1)).map (fun x => x + S) ++
          ((q.drop (bisect_left dates cutover + 1)).map (fun x => x + S)).map
            (fun x => x - (q.getD (bisect_left dates cutover + 1) 0 + S -
              (q.getD (bisect_left dates cutover) 0 + S)))) := by
    simp only [step_correct]
    rw [if_pos ⟨hj0, hjlt⟩, map_add_getD q S _ hj1q,
      map_add_getD q S _ (show bisect_left dates cutover < q.length by omega),
      ← List.map_take, ← List.map_drop]
  have hcorr : (q.take (bisect_left dates cutover + 1)).map (fun x => x + S) ++
      ((q.drop (bisect_left dates cutover + 1)).map (fun x => x + S)).map
        (fun x => x - (q.getD (bisect_left dates cutover + 1) 0 + S -
          (q.getD (bisect_left dates cutover) 0 + S))) =
      (q.take (bisect_left dates cutover + 1) ++
        ((q.drop (bisect_left dates cutover + 1)).map (fun x => x + S)).map
          (fun x => x - (q.getD (bisect_left dates cutover + 1) 0 + S -
            q.getD (bisect_left dates cutover) 0))).map (fun x => x + S) := by
    rw [List.map_append]
    congr 1
    simp only [List.map_map]
    apply List.map_congr_left
    intro a _
    simp only [Function.comp]
    ring
  have hlenP : (q.take (bisect_left dates cutover + 1) ++
      (q.drop (bisect_left dates cutover + 1)).map (fun x => x + S)).length =
      dates.length := by
    simp only [List.length_append, List.length_take, List.length_map, List.length_drop]
    omega
  have hlenQ : (q.map (fun x => x + S)).length = dates.length := by
    simp only [List.length_map]
    omega
  have htsne : dates_to_ints (dates.getD 0 0) dates ≠ [] := by
    apply List.length_pos.mp
    simp only [dates_to_ints, List.length_map]
    omega
  have hlenW : (dates_to_ints (dates.getD 0 0) dates).length =
      (q.take (bisect_left dates cutover + 1) ++
        ((q.drop (bisect_left dates cutover + 1)).map (fun x => x + S)).map
          (fun x => x - (q.getD (bisect_left dates cutover + 1) 0 + S -
            q.getD (bisect_left dates cutover) 0))).length := by
    simp only [dates_to_ints, List.length_map, List.length_append, List.length_take,
      List.length_drop]
    omega
  simp only [regress]
  rw [hfull]
  rw [if_neg (show ¬dates.length = 0 by omega)]
  rw [if_neg (show ¬dates.length = 0 by omega)]
  rw [List.take_length]
  rw [List.take_of_length_le (le_of_eq hlenP), List.take_of_length_le (le_of_eq hlenQ)]
  rw [hscP, hscQ]
  dsimp only
  rw [if_pos (show 1 < dates.length by omega)]
  rw [if_pos (show 1 < dates.length by omega)]
  rw [hcorr, olsFit_map_add _ _ S hlenW htsne]
  dsimp only
  rw [show (olsFit (dates_to_ints (dates.getD 0 0) dates)
        (q.take (bisect_left dates cutover + 1) ++
          ((q.drop (bisect_left dates cutover + 1)).map (fun x => x + S)).map
            (fun x => x - (q.getD (bisect_left dates cutover + 1) 0 + S -
              q.getD (bisect_left dates cutover) 0)))).2 +
      (q.getD (bisect_left dates cutover + 1) 0 + S -
        q.getD (bisect_left dates cutover) 0) =
      (olsFit (dates_to_ints (dates.getD 0 0) dates)
        (q.take (bisect_left dates cutover + 1) ++
          ((q.drop (bisect_left dates cutover + 1)).map (fun x => x + S)).map
            (fun x => x - (q.getD (bisect_left dates cutover + 1) 0 + S -
              q.getD (bisect_left dates cutover) 0)))).2 + S +
      (q.getD (bisect_left dates cutover + 1) 0 + S -
        (q.getD (bisect_left dates cutover) 0 + S)) from by ring]

/-- Witness for C4 (amended): the jump-free daily series `[100, 95, 90, 85]`
over Nov 23-26 2023 with a `-30` jump inserted after the code's correction
boundary, against the same series shifted wholly into the post-jump frame. -/
theorem regress_jump_invariant_witness :
    regress [19684, 19685, 19686, 19687]
      (([100, 95, 90, 85] : List ℚ).take (bisect_left [19684, 19685, 19686, 19687] cutover + 1) ++
        (([100, 95, 90, 85] : List ℚ).drop
          (bisect_left [19684, 19685, 19686, 19687] cutover + 1)).map (fun x => x + (-30)))
      19687 0 0 =
    regress [19684, 19685, 19686, 19687] (([100, 95, 90, 85] : List ℚ).map (fun x => x + (-30)))
      19687 0 0 :=
  regress_jump_invariant [19684, 19685, 19686, 19687] [100, 95, 90, 85] (-30) 19687 0 0
    rfl (by decide) (by decide) (by decide)

end Rwth
